import Mathlib

set_option maxRecDepth 4000

/-!
Verification development for the yaps broadcast-automation middleware.

The definitions below are shallow embeddings of the Go sources:
* `list/automode.go`   — `AutoMode`, `String`, `ParseAutoMode`;
* `list/item.go`       — `ItemType`, `Item`, `IsSelectable`;
* `list/list.go`       — `List` (here `ListState`) with `Add`, `Count`,
  `SetAutoMode`, `Selection`, `Select`, `Freeze`, `Next`, `chooseNext`,
  `shuffleChoose`;
* `list/controller.go` — `Dump`, `HandleRequest` and its sub-handlers;
* `comm/controller.go` — the Controller's `handleRequest` dispatch;
* `comm/bifrost.go` and `list/bifrost.go` — response emission and the
  new-client handshake;
* `bifrost/message.go` — `Message`, `Pack`, `escapeArgument`,
  `LineToMessage`.

Go strings are modelled as Lean `String` where only equality matters and as
`List Char` (`Str`) where the code walks over runes.  The `math/rand`
source inside a list is modelled as a stream of natural draws (`rng :
List Nat`): `Intn n` consumes the head modulo `n`, which ranges over
exactly the values the Go generator can produce.  Go `panic` is modelled
with `Except String`.  Fallible operations return their error as data.
-/

namespace Yaps

abbrev Str := List Char

/-! ## list/automode.go -/

/-- `AutoMode` enumerates the autoselection modes (`list/automode.go`). -/
inductive AutoMode
  | off
  | drop
  | next
  | shuffle
  deriving DecidableEq, Repr

/-- `AutoMode.String` from `list/automode.go`: the Bifrost name of a mode.
(The Go `default: "?unknown?"` arm is unreachable for the four modes of the
data model.) -/
def AutoMode.string : AutoMode → String
  | .off => "off"
  | .drop => "drop"
  | .next => "next"
  | .shuffle => "shuffle"

/-- Errors returned by the list role and codec, as structured data standing
for the Go `error` values produced with `fmt.Errorf`. -/
inductive Err
  | invalidAutomode
  | duplicateHash (hash : String) (index : Int)
  | insertOutOfRange (index : Int) (count : Nat)
  | selectIndexOutOfBounds (index : Int)
  | selectHashMismatch (requested actual : String)
  | selectNotSelectable
  | cantHandleRequest
  deriving DecidableEq, Repr

/-- `ParseAutoMode` from `list/automode.go`.  Mirrors the Go signature
`(AutoMode, error)`: on failure it returns `AutoOff` together with the
`invalid automode` error. -/
def ParseAutoMode (s : String) : AutoMode × Option Err :=
  if s = "off" then (.off, none)
  else if s = "drop" then (.drop, none)
  else if s = "next" then (.next, none)
  else if s = "shuffle" then (.shuffle, none)
  else (.off, some .invalidAutomode)

/-! ## Item (list role) -/

/-- `ItemType` from the list package. -/
inductive ItemType
  | none
  | track
  | text
  deriving DecidableEq, Repr

/-- `Item`: hash, payload and type. -/
structure Item where
  hash : String
  payload : String
  itype : ItemType
  deriving DecidableEq, Repr

/-- `Item.IsSelectable`: every item type except `ItemText` is selectable. -/
def Item.IsSelectable (i : Item) : Bool :=
  i.itype != ItemType.text

/-! ## List state (list/list.go) -/

/-- The `List` structure from `list/list.go`: the item sequence, the current
selection index (`-1` when nothing is selected), the autoselect mode, the
set of used hashes for shuffle mode, and the random source. -/
structure ListState where
  items : List Item
  selection : Int
  autoselect : AutoMode
  usedHashes : List String
  rng : List Nat
  deriving DecidableEq, Repr

/-- `New` from `list/list.go`: empty list, no selection, autoselect off,
empty used-hash set; the random source is whatever seed the clock gave. -/
def ListState.new (rng : List Nat) : ListState :=
  { items := [], selection := -1, autoselect := .off, usedHashes := [], rng := rng }

/-- `elementWithIndex` from `list/list.go`.  The Go loop counts `j` upward
from `0` until it reaches `i`, so a negative `i` walks off the end and
yields `nil`; otherwise the `i`-th element is returned if it exists. -/
def findAtIndex : List Item → Int → Option Item
  | [], _ => Option.none
  | x :: xs, i => if i = 0 then some x else findAtIndex xs (i - 1)

def ListState.elementWithIndex (l : ListState) (i : Int) : Option Item :=
  findAtIndex l.items i

/-- `elementWithHash` from `list/list.go`: index and element of the first
item carrying `hash`, scanning front to back with a counter. -/
def findHashFrom : Nat → List Item → String → Option (Nat × Item)
  | _, [], _ => Option.none
  | i, x :: xs, h => if x.hash = h then some (i, x) else findHashFrom (i + 1) xs h

def ListState.elementWithHash (l : ListState) (hash : String) : Option (Nat × Item) :=
  findHashFrom 0 l.items hash

/-- `ItemWithHash` from `list/list.go`: `(-1, nil)` when the hash is absent. -/
def ListState.ItemWithHash (l : ListState) (hash : String) : Int × Option Item :=
  match l.elementWithHash hash with
  | some (i, it) => ((i : Int), some it)
  | Option.none => (-1, Option.none)

/-- `Count` from `list/list.go`. -/
def ListState.Count (l : ListState) : Nat :=
  l.items.length

/-- Insertion after the element at index `n - 1`, i.e. at position `n`
(`l.list.InsertAfter(item, e)` with `e = elementWithIndex(i-1)`). -/
def insertAt : List Item → Nat → Item → List Item
  | xs, 0, it => it :: xs
  | [], _ + 1, it => [it]
  | x :: xs, n + 1, it => x :: insertAt xs n it

/-- `Add` from `list/list.go`.  Fails on a duplicate hash (before touching
the state); otherwise an insert at or before the current selection first
shifts the selection down one, then the item is inserted at the front for
`i = 0`, after the predecessor for a valid `i`, and otherwise the overshoot
error is returned. -/
def ListState.Add (l : ListState) (item : Item) (i : Int) : ListState × Option Err :=
  match l.elementWithHash item.hash with
  | some (j, _) => (l, some (.duplicateHash item.hash (j : Int)))
  | Option.none =>
    let sel1 : Int := if i ≤ l.selection then l.selection + 1 else l.selection
    if i = 0 then
      ({ l with selection := sel1, items := item :: l.items }, Option.none)
    else if 1 ≤ i ∧ i ≤ (l.items.length : Int) then
      ({ l with selection := sel1, items := insertAt l.items i.toNat item }, Option.none)
    else
      ({ l with selection := sel1 }, some (.insertOutOfRange i l.items.length))

/-- `SetAutoMode` from `list/list.go`: returns whether the mode changed;
entering shuffle from another mode clears the used-hash set. -/
def ListState.SetAutoMode (l : ListState) (mode : AutoMode) : ListState × Bool :=
  if mode = l.autoselect then (l, false)
  else
    let l1 := if mode = .shuffle then { l with usedHashes := [] } else l
    ({ l1 with autoselect := mode }, true)

/-- `Selection` from `list/list.go`.  `(-1, nil)` when nothing is selected;
otherwise the selected index and item, with the Go panic
`"Selection(): selection not in list"` modelled as `Except.error`. -/
def ListState.Selection (l : ListState) : Except String (Int × Option Item) :=
  if l.selection = -1 then .ok (-1, Option.none)
  else
    match l.elementWithIndex l.selection with
    | some item => .ok (l.selection, some item)
    | Option.none => .error "Selection(): selection not in list"

/-- `Select` from `list/list.go`: validates index, hash and selectability,
then moves the selection; `changed` reports whether the index moved. -/
def ListState.Select (l : ListState) (index : Int) (hash : String) :
    ListState × Bool × Option Err :=
  match l.elementWithIndex index with
  | Option.none => (l, false, some (.selectIndexOutOfBounds index))
  | some i =>
    if hash ≠ i.hash then (l, false, some (.selectHashMismatch hash i.hash))
    else if ¬ i.IsSelectable then (l, false, some .selectNotSelectable)
    else ({ l with selection := index }, decide (index ≠ l.selection), Option.none)

/-- `Freeze` from `list/list.go`: snapshot of the items in order. -/
def ListState.Freeze (l : ListState) : List Item :=
  l.items

/-- The index/item enumeration built by the `shuffleChoose` scan
(`i` counts from `0` as the loop walks the linked list). -/
def enumFromN : Nat → List Item → List (Nat × Item)
  | _, [] => []
  | i, x :: xs => (i, x) :: enumFromN (i + 1) xs

/-- The `unpickedI`/`unpickedH` scan at the head of `shuffleChoose`: the
indexed items whose hash is not in the used-hash set, in list order. -/
def ListState.unpicked (l : ListState) : List (Nat × Item) :=
  (enumFromN 0 l.items).filter fun p => decide (p.2.hash ∉ l.usedHashes)

/-- `shuffleChoose` from `list/list.go`: gather the items whose hash is not
yet used; if none remain, clear the used set and return `(-1, "")`;
otherwise draw `s := Intn(count)` from the random source, mark the chosen
hash used and return its index and hash. -/
def ListState.shuffleChoose (l : ListState) : ListState × Int × String :=
  match l.unpicked with
  | [] => ({ l with usedHashes := [] }, -1, "")
  | q :: qs =>
    let s := l.rng.headD 0 % (q :: qs).length
    let p := (q :: qs).getD s q
    ({ l with usedHashes := p.2.hash :: l.usedHashes, rng := l.rng.tail },
     (p.1 : Int), p.2.hash)

/-- `chooseNext` from `list/list.go`: the next selection given the current
index `i` and its element `prev`.  (The Go fall-through after the switch is
unreachable for the four modes.) -/
def ListState.chooseNext (l : ListState) (i : Int) (prev : Item) :
    ListState × Int × String :=
  match l.autoselect with
  | .off => (l, i, prev.hash)
  | .drop => (l, -1, "")
  | .next =>
    match l.elementWithIndex (i + 1) with
    | some e => (l, i + 1, e.hash)
    | Option.none => (l, -1, "")
  | .shuffle => l.shuffleChoose

/-- `Next` from `list/list.go`: with no current selection the call returns
`(-1, false)` unchanged; otherwise `chooseNext` picks the new index, the
selection is moved there, and the changed flag compares the new hash with
the old element's hash. -/
def ListState.Next (l : ListState) : ListState × Int × Bool :=
  match l.elementWithIndex l.selection with
  | Option.none => (l, -1, false)
  | some e =>
    let r := l.chooseNext l.selection e
    ({ r.1 with selection := r.2.1 }, r.2.1, r.2.2 != e.hash)

/-- The representation invariant every list built through the module's API
maintains: the selection is `-1` or a valid index. -/
def ListState.WF (l : ListState) : Prop :=
  l.selection = -1 ∨ (0 ≤ l.selection ∧ l.selection < (l.items.length : Int))

/-- Lists reachable from a fresh list (`New`, with any random seed) by any
sequence of `Add`, `Select`, `SetAutoMode` and `Next` operations. -/
inductive Reach : ListState → Prop
  | new (rng : List Nat) : Reach (ListState.new rng)
  | add (l : ListState) (item : Item) (i : Int) : Reach l → Reach (l.Add item i).1
  | select (l : ListState) (i : Int) (h : String) : Reach l → Reach (l.Select i h).1
  | setAutoMode (l : ListState) (m : AutoMode) : Reach l → Reach (l.SetAutoMode m).1
  | nextStep (l : ListState) : Reach l → Reach (l.Next).1

/-- The sequence of consecutive `Next` calls: each entry records the state
after the call together with the returned index and changed flag. -/
def nextTrace : ListState → Nat → List (ListState × Int × Bool)
  | _, 0 => []
  | l, n + 1 => l.Next :: nextTrace (l.Next).1 n

/-- The hashes of the items chosen by `n` consecutive `Next` calls: for each
call returning an index other than `-1`, the hash of the item at that index
(looked up in the post-state, whose items equal the pre-state's). -/
def tracePicks (l : ListState) : Nat → List String
  | 0 => []
  | n + 1 =>
    (if (l.Next).2.1 = -1 then Option.none
     else ((l.Next).1.items[(l.Next).2.1.toNat]?).map Item.hash).toList
    ++ tracePicks (l.Next).1 n

/-! ### Concrete states used by witnesses and counterexamples -/

/-- A fresh list in Drop automode, used to refute claim C8 as stated. -/
def dropFresh : ListState :=
  { items := [], selection := -1, autoselect := .drop, usedHashes := [], rng := [] }

/-- A drop-mode list with a selected track, for claim C8's witness. -/
def dropSelected : ListState :=
  { items := [⟨"a", "t.mp3", .track⟩], selection := 0, autoselect := .drop,
    usedHashes := [], rng := [] }

/-- A one-track list used to exercise claim C10's theorem. -/
def addCexList : ListState :=
  { items := [⟨"a", "p.mp3", .track⟩], selection := -1, autoselect := .off,
    usedHashes := [], rng := [] }

/-- A reachable list whose selection, after `Next` in Next automode, sits on
a non-selectable Text item: fresh list, add track `a` at 0, add text `b`
at 1, select 0 `a`, set automode next, `Next`. -/
def lC2 : ListState :=
  ((((((ListState.new []).Add ⟨"a", "x.mp3", .track⟩ 0).1.Add
      ⟨"b", "hello", .text⟩ 1).1.Select 0 "a").1.SetAutoMode .next).1.Next).1

/-- A small reachable list with a selected track, witnessing claim C2's
amended theorem. -/
def lC2w : ListState :=
  (((ListState.new []).Add ⟨"a", "x.mp3", .track⟩ 0).1.Select 0 "a").1

/-- A two-track shuffle-mode list with a selection, for claim C4's witness. -/
def shuffleW : ListState :=
  { items := [⟨"a", "x.mp3", .track⟩, ⟨"b", "y.mp3", .track⟩], selection := 0,
    autoselect := .shuffle, usedHashes := [], rng := [1, 0, 0] }

/-! ## Bifrost message codec (bifrost/message.go) -/

/-- `Message` from `bifrost/message.go`: a string tag, a string word, and
zero or more string arguments. -/
structure Message where
  tag : String
  word : String
  args : List String
  deriving DecidableEq, Repr

/-- The per-rune test of `Pack`'s escape loop:
`c < unicode.MaxASCII && (unicode.IsSpace(c) || strings.ContainsRune("'\"\\", c))`.
`MaxASCII` is 127; below 127 Go's `unicode.IsSpace` holds exactly for the
bytes 9, 10, 11, 12, 13 and 32. -/
def packSpecial (c : Char) : Bool :=
  decide (c.toNat < 127) &&
    (decide (c.toNat = 32 ∨ (9 ≤ c.toNat ∧ c.toNat ≤ 13)) ||
     c == '\'' || c == '"' || c == '\\')

/-- The replacement step of `escapeArgument`'s
`strings.Replace(input, "'", "'\\''", -1)`. -/
def escapeQuote (c : Char) : Str :=
  if c = '\'' then ['\'', '\\', '\'', '\''] else [c]

/-- `escapeArgument` from `bifrost/message.go`: wrap in single quotes,
every single quote replaced by the four bytes quote, backslash, quote,
quote. -/
def escapeArgument (a : Str) : Str :=
  '\'' :: (a.flatMap escapeQuote ++ ['\''])

/-- The argument rendering inside `Pack`'s loop: escaped iff some rune is
special. -/
def packArg (a : String) : Str :=
  if a.data.any packSpecial then escapeArgument a.data else a.data

/-- `Pack` from `bifrost/message.go`: tag, space, word, each argument
preceded by a space (escaped where needed), terminated by a newline. -/
def Message.Pack (m : Message) : Str :=
  m.tag.data ++ (' ' :: m.word.data) ++
    (m.args.flatMap fun a => ' ' :: packArg a) ++ ['\n']

/-- Spec-side quoting test for claim C5, from the spec's words: whitespace,
a single quote, a double quote, or a backslash. -/
def specNeedsQuoting (c : Char) : Bool :=
  decide (c.toNat = 32 ∨ (9 ≤ c.toNat ∧ c.toNat ≤ 13)) ||
    c == '\'' || c == '"' || c == '\\'

/-- Spec-side escaping for claim C5: single-quoted, each literal single
quote emitted as quote, backslash, quote, quote. -/
def specEscapeArgument (a : Str) : Str :=
  '\'' :: ((a.flatMap fun c => if c = '\'' then ['\'', '\\', '\'', '\''] else [c]) ++ ['\''])

/-- Spec-side `Pack` for claim C5: the byte sequence tag, space, word, then
for each argument a space and the argument, single-quoted iff it needs
quoting, terminated by a single newline. -/
def PackSpec (m : Message) : Str :=
  m.tag.data ++ (' ' :: m.word.data) ++
    (m.args.flatMap fun a =>
      ' ' :: (if a.data.any specNeedsQuoting then specEscapeArgument a.data else a.data)) ++
    ['\n']

/-- `LineToMessage` from `bifrost/message.go`: at least two words are
required (else the *insufficient words* error); word 0 is the tag, word 1
the command word, the rest the arguments. -/
def LineToMessage (line : List Str) : Except String Message :=
  match line with
  | t :: w :: args => .ok ⟨String.mk t, String.mk w, args.map String.mk⟩
  | _ => .error "insufficient words"

/-! ## Tokeniser

Modelled from the spec: the tokeniser belongs to this repository's
`bifrost` package, but its source file is not under `src/` (only its
callers are).  Spec §3: the state is a current-word buffer, a current-line
buffer of completed words, and a quoting mode; when a newline occurs
outside any quote a completed line is yielded; backslash inside the
none/single-quoted contexts escapes the next byte; inside double quotes
`\\` and `\"` are special.  The escaping rules need transient
escape-pending states for the none and single contexts alongside the
spec's listed escape-next-in-double mode. -/

/-- Modelled from the spec: the quoting mode of the tokeniser (§3), with
the escape-pending states its escaping rules require. -/
inductive QuoteMode
  | noQuote
  | single
  | double
  | escNone
  | escSingle
  | escDouble
  deriving DecidableEq, Repr

/-- Modelled from the spec: tokeniser state (§3): current-word buffer,
current-line buffer of completed words, quoting mode. -/
structure Tok where
  word : Str
  line : List Str
  mode : QuoteMode
  deriving DecidableEq, Repr

def Tok.init : Tok := ⟨[], [], .noQuote⟩

/-- Word-breaking whitespace outside quotes (ASCII whitespace; the newline
is handled separately as the line terminator). -/
def isWordBreak (c : Char) : Bool :=
  decide (c.toNat = 32 ∨ c.toNat = 9 ∨ c.toNat = 11 ∨ c.toNat = 12 ∨ c.toNat = 13)

/-- Complete the current word, if nonempty, onto the line buffer. -/
def Tok.endWord (t : Tok) : Tok :=
  if t.word = [] then t else { t with word := [], line := t.line ++ [t.word] }

/-- Modelled from the spec: tokenise one byte.  Returns the new state and
the completed lines it yielded (one when a newline occurs outside any
quote). -/
def tokStep (t : Tok) (c : Char) : Tok × List (List Str) :=
  match t.mode with
  | .escNone => ({ t with word := t.word ++ [c], mode := .noQuote }, [])
  | .escSingle => ({ t with word := t.word ++ [c], mode := .single }, [])
  | .escDouble =>
    if c = '\\' ∨ c = '"' then ({ t with word := t.word ++ [c], mode := .double }, [])
    else ({ t with word := t.word ++ ['\\', c], mode := .double }, [])
  | .noQuote =>
    if c = '\n' then (Tok.init, [(t.endWord).line])
    else if c = '\\' then ({ t with mode := .escNone }, [])
    else if c = '\'' then ({ t with mode := .single }, [])
    else if c = '"' then ({ t with mode := .double }, [])
    else if isWordBreak c then (t.endWord, [])
    else ({ t with word := t.word ++ [c] }, [])
  | .single =>
    if c = '\'' then ({ t with mode := .noQuote }, [])
    else if c = '\\' then ({ t with mode := .escSingle }, [])
    else ({ t with word := t.word ++ [c] }, [])
  | .double =>
    if c = '"' then ({ t with mode := .noQuote }, [])
    else if c = '\\' then ({ t with mode := .escDouble }, [])
    else ({ t with word := t.word ++ [c] }, [])

/-- Feed a byte sequence through the tokeniser, collecting completed
lines. -/
def runTok : Tok → Str → Tok × List (List Str)
  | t, [] => (t, [])
  | t, c :: cs =>
    ((runTok (tokStep t c).1 cs).1, (tokStep t c).2 ++ (runTok (tokStep t c).1 cs).2)

/-- Tokenise a byte sequence from the fresh state. -/
def tokenise (s : Str) : List (List Str) :=
  (runTok Tok.init s).2

/-- The claim C6 composite `Pack ∘ LineToMessage ∘ tokenise`, on inputs
that tokenise to exactly one complete line. -/
def roundTrip (s : Str) : Option Str :=
  match tokenise s with
  | [ws] =>
    match LineToMessage ws with
    | .ok m => some m.Pack
    | .error _ => Option.none
  | _ => Option.none

/-- Strings none of whose bytes is special to `Pack` or the tokeniser:
usable as wire tags and command words. -/
def cleanStr (s : Str) : Prop :=
  s ≠ [] ∧ ∀ c ∈ s, packSpecial c = false

/-- The counterexample line for claim C6: syntactically valid, non-empty,
but with redundant quoting that `Pack` does not reproduce. -/
def cexLine : Str :=
  ("a b 'c'\n").data

/-- The witness message for claim C6's amended theorem. -/
def mC6w : Message :=
  { tag := "t1", word := "sel", args := ["0", "a b"] }

/-! ## Controller and list role handlers
(comm/controller.go, list controller.go, list/bifrost.go, comm/bifrost.go) -/

/-- Request bodies (comm/request.go plus the list role's requests).
`unknownBody` stands for any body neither the Controller nor the list
understands (for example `NextRequest`, which the list handler's default
arm rejects). -/
inductive RBody
  | role
  | dump
  | newClient
  | shutdown
  | setAutoMode (m : AutoMode)
  | setSelect (index : Int) (hash : String)
  | addItem (index : Int) (it : Item)
  | unknownBody
  deriving DecidableEq, Repr

/-- Response bodies (comm/response.go plus the list role's responses). -/
inductive ResBody
  | ack (err : Option Err)
  | role (r : String)
  | newClient
  | autoMode (m : AutoMode)
  | sel (index : Int) (hash : String)
  | freeze (items : List Item)
  | item (index : Int) (it : Item)
  deriving DecidableEq, Repr

/-- A request origin: the tag identifying the requester and its ReplyTx. -/
structure Origin where
  tag : String
  deriving DecidableEq, Repr

/-- An observable effect of handling a request: a unicast reply on the
origin's ReplyTx, or a broadcast to every attached client's Rx. -/
inductive Event
  | reply (o : Origin) (b : ResBody)
  | broadcast (b : ResBody)
  deriving DecidableEq, Repr

/-- `selectResponse` from the list controller: hash `"(undefined)"` when
nothing is selected; the two consistency panics are modelled as errors. -/
def ListState.selectResponse (l : ListState) : Except String ResBody :=
  match l.Selection with
  | .error s => .error s
  | .ok (i, Option.none) =>
    if i ≠ -1 then .error "nil item with defined selection"
    else .ok (.sel i "(undefined)")
  | .ok (i, some it) =>
    if i < 0 then .error "non-nil item with negative selection"
    else .ok (.sel i it.hash)

/-- `Dump` from the list controller: automode, freeze, selection, in this
fixed order. -/
def ListState.DumpBodies (l : ListState) : Except String (List ResBody) :=
  match l.selectResponse with
  | .error s => .error s
  | .ok sr => .ok [.autoMode l.autoselect, .freeze l.Freeze, sr]

/-- A call of one of the two callback parameters of the list's
`HandleRequest(replyCb, bcastCb, rbody)`: which formal parameter was
invoked, and with which body. -/
inductive CbEvent
  | viaReply (b : ResBody)
  | viaBcast (b : ResBody)
  deriving DecidableEq, Repr

/-- `HandleRequest` from the list controller, with its sub-handlers
`handleAutoModeRequest`, `handleSelectRequest` (which broadcasts the select
response only under `err != nil && changed`) and `handleAddItemRequest`.
Returns the new list, the callback invocations in order, and the error. -/
def ListState.HandleRequest (l : ListState) (rbody : RBody) :
    Except String (ListState × List CbEvent × Option Err) :=
  match rbody with
  | .setAutoMode m =>
    .ok ((l.SetAutoMode m).1,
      if (l.SetAutoMode m).2
        then [.viaBcast (.autoMode (l.SetAutoMode m).1.autoselect)] else [],
      Option.none)
  | .setSelect i h =>
    if (l.Select i h).2.2 ≠ Option.none ∧ (l.Select i h).2.1 = true then
      match (l.Select i h).1.selectResponse with
      | .error s => .error s
      | .ok sr => .ok ((l.Select i h).1, [.viaBcast sr], (l.Select i h).2.2)
    else .ok ((l.Select i h).1, [], (l.Select i h).2.2)
  | .addItem i it =>
    .ok ((l.Add it i).1,
      if (l.Add it i).2 = Option.none then [.viaBcast (.item i it)] else [],
      (l.Add it i).2)
  | _ => .ok (l, [], some .cantHandleRequest)

/-- The dispatch switch of `handleRequest` from comm/controller.go: the
common bodies are handled by the Controller itself; everything else goes to
the state as `c.state.HandleRequest(c.broadcast, replyCb, body)` — the
Controller's broadcast function is passed as the state handler's first
(`replyCb`) parameter and its unicast reply closure as the second
(`bcastCb`) parameter, so the state's `viaReply` calls broadcast and its
`viaBcast` calls reply to the origin. -/
def dispatch (l : ListState) (o : Origin) (rbody : RBody) :
    Except String (ListState × List Event × Option Err) :=
  match rbody with
  | .role => .ok (l, [.reply o (.role "list")], Option.none)
  | .dump =>
    match l.DumpBodies with
    | .error s => .error s
    | .ok bs => .ok (l, bs.map (Event.reply o), Option.none)
  | .newClient => .ok (l, [.reply o .newClient], Option.none)
  | .shutdown => .ok (l, [], Option.none)
  | b =>
    match l.HandleRequest b with
    | .error s => .error s
    | .ok (l1, evs, err) =>
      .ok (l1, evs.map (fun e =>
        match e with
        | .viaReply rb => Event.broadcast rb
        | .viaBcast rb => Event.reply o rb), err)

/-- `handleRequest` from comm/controller.go: dispatch, then reply the
`AckResponse` carrying the handler's error (or nil) to the origin. -/
def handleRequest (l : ListState) (o : Origin) (rbody : RBody) :
    Except String (ListState × List Event) :=
  match dispatch l o rbody with
  | .error s => .error s
  | .ok (l1, evs, err) => .ok (l1, evs ++ [.reply o (.ack err)])

/-! ## Bifrost response emission and the new-client handshake -/

/-- The Go error strings produced by the code paths modelled above. -/
def Err.string : Err → String
  | .invalidAutomode => "invalid automode"
  | .duplicateHash h j =>
    "List.Add(): duplicate hash " ++ h ++ " at index " ++ toString j
  | .insertOutOfRange i n =>
    "Tried to insert element at index " ++ toString i ++ " when there are only "
      ++ toString n ++ " item(s)"
  | .selectIndexOutOfBounds i => "Select: index " ++ toString i ++ " out of bounds"
  | .selectHashMismatch req act =>
    "Select: hash mismatch: requested '" ++ req ++ "', actual '" ++ act ++ "'"
  | .selectNotSelectable => "Select: item not selectable"
  | .cantHandleRequest => "list can't handle this request"

/-- `strconv.Itoa` for the indexes and counts in wire messages. -/
def itoa (i : Int) : String := toString i

/-- `handleItem` from list/bifrost.go: `FLOADL` for tracks, `TLOADL` for
text items; an unknown item type is an error. -/
def handleItem (t : String) (r : Int × Item) : Except String Message :=
  match r.2.itype with
  | .track => .ok ⟨t, "FLOADL", [itoa r.1, r.2.hash, r.2.payload]⟩
  | .text => .ok ⟨t, "TLOADL", [itoa r.1, r.2.hash, r.2.payload]⟩
  | .none => .error "unknown item type"

/-- The per-item loop of `handleFreeze`. -/
def emitItems (t : String) : Nat → List Item → Except String (List Message)
  | _, [] => .ok []
  | i, it :: rest =>
    match handleItem t ((i : Int), it) with
    | .error s => .error s
    | .ok msg =>
      match emitItems t (i + 1) rest with
      | .error s => .error s
      | .ok msgs => .ok (msg :: msgs)

/-- `EmitBifrostResponse` from list/bifrost.go (`handleAutoMode`,
`handleFreeze`, `handleItem`, `handleSelect`): role-specific responses as
wire messages. -/
def EmitBifrostResponse (t : String) (rbody : ResBody) : Except String (List Message) :=
  match rbody with
  | .autoMode m => .ok [⟨t, "AUTO", [m.string]⟩]
  | .freeze items =>
    match emitItems t 0 items with
    | .error s => .error s
    | .ok msgs => .ok (⟨t, "COUNTL", [itoa (items.length : Int)]⟩ :: msgs)
  | .item i it =>
    match handleItem t (i, it) with
    | .error s => .error s
    | .ok msg => .ok [msg]
  | .sel i h => .ok [⟨t, "SEL", [itoa i, h]⟩]
  | _ => .error "response with no message equivalent"

/-- `errorToMessage` from comm/bifrost.go. -/
def errorToMessage (t : String) (e : String) : Message :=
  ⟨t, "ACK", ["WHAT", e]⟩

/-- `handleResponse` from comm/bifrost.go, applied to a response body under
its Bifrost tag: a nil-error ACK becomes `ACK OK success`, an ACK carrying
an error becomes `ACK WHAT`, a role becomes `IAMA`, and the rest is
delegated to the list's emitter (whose failure becomes `ACK WHAT`). -/
def handleResponse (t : String) (b : ResBody) : List Message :=
  match b with
  | .ack Option.none => [⟨t, "ACK", ["OK", "success"]⟩]
  | .ack (some e) => [errorToMessage t e.string]
  | .role r => [⟨t, "IAMA", [r]⟩]
  | b' =>
    match EmitBifrostResponse t b' with
    | .ok msgs => msgs
    | .error s => [errorToMessage t s]

/-- Whether a response body is an `AckResponse` (a `Done` terminator). -/
def isAck : ResBody → Bool
  | .ack _ => true
  | _ => false

/-- The reply bodies delivered on origin `o`'s ReplyTx, in emission
order. -/
def repliesTo (o : Origin) (evs : List Event) : List ResBody :=
  evs.filterMap fun e =>
    match e with
    | .reply o' b => if o' = o then some b else Option.none
    | .broadcast _ => Option.none

/-- `handleResponsesUntilAck` from comm/bifrost.go over a finished reply
stream: emit every response before the first ACK; the ACK itself is
suppressed. -/
def untilAck (t : String) (bodies : List ResBody) : List Message :=
  (bodies.takeWhile fun b => !(isAck b)).flatMap (handleResponse t)

/-- The broadcast-tag origin the adapter uses for its injected Role and
Dump requests. -/
def bcastOrigin : Origin := ⟨"!"⟩

/-- `handleNewClientResponses` from comm/bifrost.go over a list Controller:
the `OHAI` banner (protocol version `bifrost-0.0.0`, server version
`baps3d-0.0.0`), then the replies to an injected Role request and an
injected Dump request, each with its Done terminator suppressed. -/
def handleNewClientResponses (l : ListState) : Except String (List Message) :=
  match handleRequest l bcastOrigin .role with
  | .error s => .error s
  | .ok (l1, evs1) =>
    match handleRequest l1 bcastOrigin .dump with
    | .error s => .error s
    | .ok (_, evs2) =>
      .ok (⟨"!", "OHAI", ["bifrost-0.0.0", "baps3d-0.0.0"]⟩ ::
        (untilAck "!" (repliesTo bcastOrigin evs1) ++
         untilAck "!" (repliesTo bcastOrigin evs2)))

/-- The failing input for claim C1: a list holding the single selectable
track `abc`/`foo.mp3` with nothing selected, as after
`t3 floadl 0 abc foo.mp3` on a fresh list. -/
def lC1 : ListState :=
  { items := [⟨"abc", "foo.mp3", .track⟩], selection := -1, autoselect := .off,
    usedHashes := [], rng := [] }

/-! ## Helper lemmas -/

/-- `findAtIndex` succeeds exactly on valid non-negative indices, and then
agrees with positional lookup. -/
theorem findAtIndex_some (xs : List Item) :
    ∀ (i : Int) (it : Item), findAtIndex xs i = some it →
      0 ≤ i ∧ xs[i.toNat]? = some it := by
  induction xs with
  | nil =>
    intro i it h
    simp [findAtIndex] at h
  | cons x xs ih =>
    intro i it h
    by_cases h0 : i = 0
    · subst h0
      simp [findAtIndex] at h
      subst h
      simp
    · rw [findAtIndex, if_neg h0] at h
      obtain ⟨h1, h2⟩ := ih (i - 1) it h
      refine ⟨by omega, ?_⟩
      have ht : i.toNat = (i - 1).toNat + 1 := by omega
      rw [ht]
      simpa using h2

/-- A negative index walks the Go loop off the end: `findAtIndex` is `none`. -/
theorem findAtIndex_neg (xs : List Item) :
    ∀ i : Int, i < 0 → findAtIndex xs i = Option.none := by
  induction xs with
  | nil => intro i _; rfl
  | cons x xs ih =>
    intro i hi
    rw [findAtIndex, if_neg (by omega)]
    exact ih (i - 1) (by omega)

/-- Every entry of `enumFromN k xs` looks up correctly in `xs`. -/
theorem mem_enumFromN (xs : List Item) :
    ∀ (k : Nat) (p : Nat × Item), p ∈ enumFromN k xs →
      k ≤ p.1 ∧ xs[p.1 - k]? = some p.2 := by
  induction xs with
  | nil => intro k p h; simp [enumFromN] at h
  | cons x xs ih =>
    intro k p h
    rw [enumFromN] at h
    rcases List.mem_cons.mp h with h | h
    · subst h
      simp
    · obtain ⟨h1, h2⟩ := ih (k + 1) p h
      refine ⟨by omega, ?_⟩
      have ht : p.1 - k = (p.1 - (k + 1)) + 1 := by omega
      rw [ht]
      simpa using h2

/-- Every member of `xs` appears in `enumFromN k xs`. -/
theorem enumFromN_mem_of_mem (xs : List Item) :
    ∀ (k : Nat) (it : Item), it ∈ xs → ∃ j, (j, it) ∈ enumFromN k xs := by
  induction xs with
  | nil => intro k it h; simp at h
  | cons x xs ih =>
    intro k it h
    rcases List.mem_cons.mp h with h | h
    · refine ⟨k, ?_⟩
      rw [enumFromN]
      subst h
      exact List.mem_cons_self _ _
    · obtain ⟨j, hj⟩ := ih (k + 1) it h
      refine ⟨j, ?_⟩
      rw [enumFromN]
      exact List.mem_cons_of_mem _ hj

/-- `getD` returns a member of the list or the default. -/
theorem getD_mem_or {α : Type} (xs : List α) :
    ∀ (n : Nat) (d : α), xs.getD n d ∈ xs ∨ xs.getD n d = d := by
  induction xs with
  | nil => intro n d; right; cases n <;> rfl
  | cons x xs ih =>
    intro n d
    cases n with
    | zero => left; simp
    | succ n =>
      rcases ih n d with h | h
      · left
        rw [List.getD_cons_succ]
        exact List.mem_cons_of_mem _ h
      · right
        rw [List.getD_cons_succ]
        exact h

/-- `shuffleChoose` either exhausts (every item's hash is already used: the
used set is cleared and `(-1, "")` returned) or picks an item with an unused
hash, marks it used, and returns its index and hash. -/
theorem shuffleChoose_cases (l : ListState) :
    (l.shuffleChoose = ({ l with usedHashes := [] }, -1, "") ∧
      ∀ it ∈ l.items, it.hash ∈ l.usedHashes) ∨
    (∃ (idx : Nat) (it : Item),
      l.shuffleChoose =
        ({ l with usedHashes := it.hash :: l.usedHashes, rng := l.rng.tail },
         (idx : Int), it.hash) ∧
      l.items[idx]? = some it ∧ it.hash ∉ l.usedHashes) := by
  cases hu : l.unpicked with
  | nil =>
    left
    constructor
    · unfold ListState.shuffleChoose
      rw [hu]
    · intro it hit
      by_contra hnot
      obtain ⟨j, hj⟩ := enumFromN_mem_of_mem l.items 0 it hit
      have hin : (j, it) ∈ l.unpicked := by
        unfold ListState.unpicked
        exact List.mem_filter.mpr ⟨hj, by simpa using hnot⟩
      rw [hu] at hin
      simp at hin
  | cons q qs =>
    right
    set s := l.rng.headD 0 % (q :: qs).length with hs
    set p := (q :: qs).getD s q with hp
    have hmem : p ∈ q :: qs := by
      rcases getD_mem_or (q :: qs) s q with h | h
      · rw [hp]
        exact h
      · rw [hp, h]
        exact List.mem_cons_self _ _
    have hmemU : p ∈ l.unpicked := by
      rw [hu]
      exact hmem
    unfold ListState.unpicked at hmemU
    obtain ⟨henum, hpred⟩ := List.mem_filter.mp hmemU
    have hnotused : p.2.hash ∉ l.usedHashes := by simpa using hpred
    obtain ⟨-, hlook⟩ := mem_enumFromN l.items 0 p henum
    refine ⟨p.1, p.2, ?_, by simpa using hlook, hnotused⟩
    unfold ListState.shuffleChoose
    rw [hu]

/-- `Next` returns `(-1, false)` and leaves the state alone when nothing is
selected. -/
theorem next_of_noSelection (l : ListState)
    (h : l.elementWithIndex l.selection = Option.none) : l.Next = (l, -1, false) := by
  unfold ListState.Next
  rw [h]

/-- Once the selection is invalid, consecutive `Next` calls pick nothing. -/
theorem tracePicks_of_noSelection :
    ∀ (n : Nat) (l : ListState), l.elementWithIndex l.selection = Option.none →
      tracePicks l n = [] := by
  intro n
  induction n with
  | zero => intro l _; rfl
  | succ n ih =>
    intro l h
    rw [tracePicks, next_of_noSelection l h]
    rw [if_pos rfl]
    simpa using ih l h

/-- In shuffle mode with a selected element, `Next` applies `shuffleChoose`
and moves the selection to its result. -/
theorem next_shuffle_eq (l : ListState) (hm : l.autoselect = .shuffle)
    (e : Item) (he : l.elementWithIndex l.selection = some e) :
    l.Next = ({ (l.shuffleChoose).1 with selection := (l.shuffleChoose).2.1 },
              (l.shuffleChoose).2.1, (l.shuffleChoose).2.2 != e.hash) := by
  unfold ListState.Next
  rw [he]
  simp only [ListState.chooseNext, hm]

/-- Backbone of claim C4: across consecutive `Next` calls in shuffle mode,
the chosen hashes are pairwise distinct and avoid the starting used set. -/
theorem tracePicks_nodup_avoid :
    ∀ (n : Nat) (l : ListState), l.autoselect = .shuffle →
      (tracePicks l n).Nodup ∧ ∀ h ∈ tracePicks l n, h ∉ l.usedHashes := by
  intro n
  induction n with
  | zero =>
    intro l _
    exact ⟨List.nodup_nil, by intro h hh; simp [tracePicks, nextTrace] at hh⟩
  | succ n ih =>
    intro l hm
    cases he : l.elementWithIndex l.selection with
    | none =>
      rw [tracePicks_of_noSelection (n + 1) l he]
      exact ⟨List.nodup_nil, by simp⟩
    | some e =>
      have hnext := next_shuffle_eq l hm e he
      rcases shuffleChoose_cases l with ⟨hres, hall⟩ | ⟨idx, it, hres, hlook, hnew⟩
      · -- exhaustion step: the call returns -1 and the trace dies out
        have hN : l.Next = ({ l with usedHashes := [], selection := -1 },
            -1, "" != e.hash) := by
          rw [hnext, hres]
        have hnone : (l.Next).1.elementWithIndex (l.Next).1.selection = Option.none := by
          rw [hN]
          exact findAtIndex_neg l.items (-1) (by omega)
        have hcond : (l.Next).2.1 = -1 := by rw [hN]
        have hzero : tracePicks l (n + 1) = [] := by
          rw [tracePicks, if_pos hcond]
          simpa using tracePicks_of_noSelection n _ hnone
        rw [hzero]
        exact ⟨List.nodup_nil, by simp⟩
      · -- pick step
        have hN : l.Next =
            ({ l with usedHashes := it.hash :: l.usedHashes, rng := l.rng.tail, selection := (idx : Int) },
             (idx : Int), it.hash != e.hash) := by
          rw [hnext, hres]
        have hmode : (l.Next).1.autoselect = .shuffle := by
          rw [hN]
          exact hm
        obtain ⟨nd, avoid⟩ := ih (l.Next).1 hmode
        have hused : (l.Next).1.usedHashes = it.hash :: l.usedHashes := by rw [hN]
        have hcond : ¬ (l.Next).2.1 = -1 := by
          rw [hN]
          simp only []
          omega
        have hhash : ((l.Next).1.items[(l.Next).2.1.toNat]?).map Item.hash
            = some it.hash := by
          rw [hN]
          simpa using congrArg (Option.map Item.hash) hlook
        have hstep : tracePicks l (n + 1) = it.hash :: tracePicks (l.Next).1 n := by
          rw [tracePicks, if_neg hcond, hhash]
          rfl
        rw [hstep]
        constructor
        · refine List.nodup_cons.mpr ⟨fun hmem => ?_, nd⟩
          have := avoid _ hmem
          rw [hused] at this
          exact this (List.mem_cons_self _ _)
        · intro h hh
          rcases List.mem_cons.mp hh with hh | hh
          · rw [hh]
            exact hnew
          · intro hl
            have := avoid h hh
            rw [hused] at this
            exact this (List.mem_cons_of_mem _ hl)

/-! ## Claim C4 -/

/-- Claim C4: in Shuffle automode, over any sequence of consecutive `Next`
calls no item's hash is chosen twice (a repeat could only start after the
exhaustion step, and after exhaustion the trace picks nothing more until a
new selection is made); and whenever `shuffleChoose` finds no candidates it
returns index `-1` with every item's hash in the used set, and clears the
used-hash set so the cycle restarts. -/
theorem shuffle_no_repeat (l : ListState) (h : l.autoselect = .shuffle) (n : Nat) :
    (tracePicks l n).Nodup ∧
    ∀ l' : ListState, (l'.shuffleChoose).2.1 = -1 →
      (∀ it ∈ l'.items, it.hash ∈ l'.usedHashes) ∧
      (l'.shuffleChoose).1.usedHashes = [] := by
  refine ⟨(tracePicks_nodup_avoid n l h).1, fun l' h' => ?_⟩
  rcases shuffleChoose_cases l' with ⟨hres, hall⟩ | ⟨idx, it, hres, hlook, hnew⟩
  · exact ⟨hall, by rw [hres]⟩
  · rw [hres] at h'
    simp only [] at h'
    omega

/-- Witness for claim C4 at the concrete shuffle list `shuffleW`, three
`Next` calls deep. -/
theorem shuffle_no_repeat_witness :
    shuffleW.autoselect = AutoMode.shuffle ∧
    ((tracePicks shuffleW 3).Nodup ∧
      ∀ l' : ListState, (l'.shuffleChoose).2.1 = -1 →
        (∀ it ∈ l'.items, it.hash ∈ l'.usedHashes) ∧
        (l'.shuffleChoose).1.usedHashes = []) :=
  ⟨rfl, shuffle_no_repeat shuffleW rfl 3⟩

/-! ## Claim C5 -/

/-- The `c < MaxASCII` guard in `Pack`'s test is redundant: every byte the
rest of the test accepts is below 127. -/
theorem packSpecial_eq_spec (c : Char) : packSpecial c = specNeedsQuoting c := by
  unfold packSpecial specNeedsQuoting
  cases hs : (decide (c.toNat = 32 ∨ (9 ≤ c.toNat ∧ c.toNat ≤ 13)) ||
      c == '\'' || c == '"' || c == '\\') with
  | false => exact Bool.and_false _
  | true =>
    rw [Bool.and_true]
    simp only [Bool.or_eq_true, decide_eq_true_eq, beq_iff_eq] at hs
    rw [decide_eq_true_eq]
    rcases hs with ((h | h) | h) | h
    · rcases h with h | ⟨h1, h2⟩ <;> omega
    · subst h; decide
    · subst h; decide
    · subst h; decide

/-- Claim C5: `Pack` produces the byte sequence tag, space, word, then for
each argument a space and the argument — single-quoted iff it contains
whitespace, a single quote, a double quote or a backslash, with each
literal single quote inside the quotes emitted as quote, backslash, quote,
quote — terminated by a single newline. -/
theorem pack_eq_spec (m : Message) : m.Pack = PackSpec m := by
  unfold Message.Pack PackSpec
  have harg : ∀ a : String,
      packArg a =
        if a.data.any specNeedsQuoting then specEscapeArgument a.data else a.data := by
    intro a
    unfold packArg
    have hany : a.data.any packSpecial = a.data.any specNeedsQuoting := by
      congr 1
      funext c
      exact packSpecial_eq_spec c
    rw [hany]
    rfl
  simp only [harg]

/-! ## Claim C6 -/

/-- What a non-special byte is not. -/
theorem clean_char_facts (c : Char) (h : packSpecial c = false) :
    ¬ c = '\n' ∧ ¬ c = '\\' ∧ ¬ c = '\'' ∧ ¬ c = '"' ∧ isWordBreak c = false := by
  refine ⟨?_, ?_, ?_, ?_, ?_⟩
  · intro he; rw [he] at h; exact absurd h (by decide)
  · intro he; rw [he] at h; exact absurd h (by decide)
  · intro he; rw [he] at h; exact absurd h (by decide)
  · intro he; rw [he] at h; exact absurd h (by decide)
  · by_contra hwb
    rw [Bool.not_eq_false] at hwb
    unfold isWordBreak at hwb
    rw [decide_eq_true_eq] at hwb
    have htrue : packSpecial c = true := by
      unfold packSpecial
      have h1 : decide (c.toNat < 127) = true := decide_eq_true (by omega)
      have h2 : decide (c.toNat = 32 ∨ (9 ≤ c.toNat ∧ c.toNat ≤ 13)) = true :=
        decide_eq_true (by omega)
      rw [h1, h2]
      rfl
    rw [h] at htrue
    cases htrue

/-- Tokenising a concatenation runs the pieces in sequence. -/
theorem runTok_append (s1 : Str) :
    ∀ (t : Tok) (s2 : Str),
      runTok t (s1 ++ s2) =
        ((runTok (runTok t s1).1 s2).1,
         (runTok t s1).2 ++ (runTok (runTok t s1).1 s2).2) := by
  induction s1 with
  | nil => intro t s2; simp [runTok]
  | cons c cs ih =>
    intro t s2
    conv_lhs => rw [List.cons_append, runTok]
    rw [ih (tokStep t c).1 s2]
    conv_rhs => rw [runTok]
    simp [List.append_assoc]

/-- Clean bytes stream into the current word: no mode change, no completed
line. -/
theorem runTok_clean :
    ∀ (s : Str), (∀ c ∈ s, packSpecial c = false) →
      ∀ (w : Str) (line : List Str),
        runTok ⟨w, line, .noQuote⟩ s = (⟨w ++ s, line, .noQuote⟩, []) := by
  intro s
  induction s with
  | nil => intro _ w line; simp [runTok]
  | cons c cs ih =>
    intro hcl w line
    obtain ⟨hn, hb, hq, hd, hwb⟩ := clean_char_facts c (hcl c (List.mem_cons_self _ _))
    have hstep : tokStep ⟨w, line, .noQuote⟩ c = (⟨w ++ [c], line, .noQuote⟩, []) := by
      simp only [tokStep]
      rw [if_neg hn, if_neg hb, if_neg hq, if_neg hd, if_neg (by simp [hwb])]
    rw [runTok, hstep]
    rw [ih (fun c' hc' => hcl c' (List.mem_cons_of_mem _ hc')) (w ++ [c]) line]
    simp

/-- Inside single quotes, the escaped body of an argument streams back into
the current word. -/
theorem runTok_escBody :
    ∀ (a : Str), '\\' ∉ a →
      ∀ (w : Str) (line : List Str),
        runTok ⟨w, line, .single⟩ (a.flatMap escapeQuote)
          = (⟨w ++ a, line, .single⟩, []) := by
  intro a
  induction a with
  | nil => intro _ w line; simp [runTok]
  | cons c cs ih =>
    intro hnb w line
    have hcs : '\\' ∉ cs := fun hc => hnb (List.mem_cons_of_mem _ hc)
    have hcb : c ≠ '\\' := fun he => hnb (he ▸ List.mem_cons_self _ _)
    by_cases hq : c = '\''
    · subst hq
      have h4 : ('\'' :: cs).flatMap escapeQuote
          = '\'' :: '\\' :: '\'' :: '\'' :: cs.flatMap escapeQuote := rfl
      rw [h4]
      have hsteps : runTok ⟨w, line, .single⟩
            ('\'' :: '\\' :: '\'' :: '\'' :: cs.flatMap escapeQuote)
          = runTok ⟨w ++ ['\''], line, .single⟩ (cs.flatMap escapeQuote) := by
        simp [runTok, tokStep]
      rw [hsteps, ih hcs]
      simp
    · have h1 : (c :: cs).flatMap escapeQuote = c :: cs.flatMap escapeQuote := by
        simp [escapeQuote, hq]
      rw [h1, runTok]
      have hstep : tokStep ⟨w, line, .single⟩ c = (⟨w ++ [c], line, .single⟩, []) := by
        simp only [tokStep]
        rw [if_neg hq, if_neg hcb]
      rw [hstep, ih hcs]
      simp

/-- An escaped argument, fed to the tokeniser outside quotes, reproduces
exactly the original argument bytes in the current word. -/
theorem runTok_escapeArgument (a : Str) (hnb : '\\' ∉ a) (w : Str) (line : List Str) :
    runTok ⟨w, line, .noQuote⟩ (escapeArgument a) = (⟨w ++ a, line, .noQuote⟩, []) := by
  unfold escapeArgument
  rw [runTok]
  have h1 : tokStep ⟨w, line, .noQuote⟩ '\'' = (⟨w, line, .single⟩, []) := by
    simp [tokStep]
  rw [h1]
  rw [runTok_append (a.flatMap escapeQuote), runTok_escBody a hnb w line]
  have h2 : runTok ⟨w ++ a, line, .single⟩ ['\''] = (⟨w ++ a, line, .noQuote⟩, []) := by
    rw [runTok]
    have : tokStep ⟨w ++ a, line, .single⟩ '\'' = (⟨w ++ a, line, .noQuote⟩, []) := by
      simp [tokStep]
    rw [this, runTok]
    simp
  rw [h2]
  simp

/-- Rendering the packed arguments and final newline completes the line:
the current word, then each argument in order, lands on the line buffer. -/
theorem runTok_args :
    ∀ (args : List String), (∀ a ∈ args, a.data ≠ [] ∧ '\\' ∉ a.data) →
      ∀ (w : Str) (line : List Str), w ≠ [] →
        runTok ⟨w, line, .noQuote⟩ ((args.flatMap fun a => ' ' :: packArg a) ++ ['\n'])
          = (Tok.init, [line ++ [w] ++ args.map String.data]) := by
  intro args
  induction args with
  | nil =>
    intro _ w line hw
    rw [List.flatMap_nil, List.nil_append, runTok]
    have hstep : tokStep ⟨w, line, .noQuote⟩ '\n'
        = (Tok.init, [line ++ [w]]) := by
      simp [tokStep, Tok.endWord, isWordBreak, hw]
    rw [hstep, runTok]
    simp
  | cons a rest ih =>
    intro hargs w line hw
    obtain ⟨hne, hnb⟩ := hargs a (List.mem_cons_self _ _)
    have hrest : ∀ a' ∈ rest, a'.data ≠ [] ∧ '\\' ∉ a'.data :=
      fun a' ha' => hargs a' (List.mem_cons_of_mem _ ha')
    rw [List.flatMap_cons, List.append_assoc, runTok_append (' ' :: packArg a)]
    have hspace : tokStep ⟨w, line, .noQuote⟩ ' '
        = (⟨[], line ++ [w], .noQuote⟩, []) := by
      simp [tokStep, Tok.endWord, isWordBreak, hw]
    have hfirst : runTok ⟨w, line, .noQuote⟩ (' ' :: packArg a)
        = (⟨a.data, line ++ [w], .noQuote⟩, []) := by
      rw [runTok, hspace]
      unfold packArg
      by_cases hesc : a.data.any packSpecial = true
      · rw [if_pos hesc]
        rw [runTok_escapeArgument a.data hnb]
        simp
      · rw [if_neg hesc]
        have hclean : ∀ c ∈ a.data, packSpecial c = false := by
          intro c hc
          rcases Bool.eq_false_or_eq_true (packSpecial c) with h | h
          · exact absurd (List.any_of_mem hc h) hesc
          · exact h
        rw [runTok_clean a.data hclean [] (line ++ [w])]
        simp
    rw [hfirst]
    rw [ih hrest a.data (line ++ [w]) hne]
    simp

/-- Claim C6 (amended): the composite `Pack ∘ LineToMessage ∘ tokenise` is
the identity on canonical (Pack-produced) lines: for a message whose tag
and word are nonempty and free of special bytes and whose arguments are
nonempty and backslash-free, tokenising `Pack m` yields the single line
`tag :: word :: args` and re-packing reproduces exactly the same bytes. -/
theorem roundTrip_pack (m : Message)
    (htag : cleanStr m.tag.data) (hword : cleanStr m.word.data)
    (hargs : ∀ a ∈ m.args, a.data ≠ [] ∧ '\\' ∉ a.data) :
    tokenise m.Pack = [m.tag.data :: m.word.data :: m.args.map String.data] ∧
    roundTrip m.Pack = some m.Pack := by
  obtain ⟨htne, htcl⟩ := htag
  obtain ⟨hwne, hwcl⟩ := hword
  have hAfterSpace : runTok (⟨m.tag.data, [], .noQuote⟩ : Tok)
      (' ' :: (m.word.data ++ ((m.args.flatMap fun a => ' ' :: packArg a) ++ ['\n'])))
      = (Tok.init, [[m.tag.data, m.word.data] ++ m.args.map String.data]) := by
    have hspace : tokStep ⟨m.tag.data, [], .noQuote⟩ ' '
        = (⟨[], [m.tag.data], .noQuote⟩, []) := by
      simp [tokStep, Tok.endWord, isWordBreak, htne]
    rw [runTok]
    simp only [hspace]
    rw [runTok_append m.word.data]
    simp only [runTok_clean m.word.data hwcl [] [m.tag.data], List.nil_append]
    rw [runTok_args m.args hargs m.word.data [m.tag.data] hwne]
    simp
  have htok : tokenise m.Pack
      = [m.tag.data :: m.word.data :: m.args.map String.data] := by
    have hshape : m.Pack = m.tag.data ++
        (' ' :: (m.word.data ++
          ((m.args.flatMap fun a => ' ' :: packArg a) ++ ['\n']))) := by
      unfold Message.Pack
      simp [List.append_assoc]
    have hTag : runTok Tok.init m.tag.data = (⟨m.tag.data, [], .noQuote⟩, []) := by
      have h := runTok_clean m.tag.data htcl [] []
      simpa [Tok.init] using h
    unfold tokenise
    rw [hshape, runTok_append m.tag.data]
    simp only [hTag, hAfterSpace]
    simp
  refine ⟨htok, ?_⟩
  have hmap : ∀ args : List String, (args.map String.data).map String.mk = args := by
    intro args
    induction args with
    | nil => rfl
    | cons a as ih => rw [List.map_cons, List.map_cons, ih]
  have hmsg : LineToMessage (m.tag.data :: m.word.data :: m.args.map String.data)
      = .ok m := by
    show Except.ok (⟨String.mk m.tag.data, String.mk m.word.data,
        (m.args.map String.data).map String.mk⟩ : Message) = .ok m
    rw [hmap m.args]
  unfold roundTrip
  rw [htok]
  simp only [hmsg]

/-- Claim C6 counterexample: the wire line `a b 'c'` (with trailing
newline) is syntactically valid and non-empty — it tokenises to the single
three-word line `a`, `b`, `c` — yet the composite returns `a b c` with a
newline, not the original bytes. -/
theorem roundTrip_cex :
    tokenise cexLine = [[['a'], ['b'], ['c']]] ∧
    roundTrip cexLine = some (("a b c\n").data) ∧
    roundTrip cexLine ≠ some cexLine := by
  refine ⟨by decide, by decide, by decide⟩

/-- Witness for claim C6's amended theorem at the concrete message
`t1 sel 0 'a b'`. -/
theorem roundTrip_pack_witness :
    cleanStr mC6w.tag.data ∧ cleanStr mC6w.word.data ∧
    (∀ a ∈ mC6w.args, a.data ≠ [] ∧ '\\' ∉ a.data) ∧
    (tokenise mC6w.Pack
        = [mC6w.tag.data :: mC6w.word.data :: mC6w.args.map String.data] ∧
      roundTrip mC6w.Pack = some mC6w.Pack) := by
  refine ⟨⟨by decide, by decide⟩, ⟨by decide, by decide⟩, by decide, ?_⟩
  exact roundTrip_pack mC6w ⟨by decide, by decide⟩ ⟨by decide, by decide⟩ (by decide)

/-! ## Claim C7 -/

/-- Claim C7: for any `AutoMode` value `m`, parsing the string rendering of
`m` gives back `m` with no error: `ParseAutoMode (m.String()) = (m, nil)`. -/
theorem parseAutoMode_string_roundtrip (m : AutoMode) :
    ParseAutoMode m.string = (m, Option.none) := by
  cases m <;> rfl

/-! ## Claim C8 -/

/-- Claim C8 (amended): for a list in Drop automode, `Next` always returns
index `-1`; when nothing is selected it returns `(-1, false)` and leaves the
list unchanged, and when an item is selected the selection becomes `-1` and
the changed flag is `true` exactly when the selected item's hash is
nonempty. -/
theorem next_drop_behaviour (l : ListState) (h : l.autoselect = .drop) :
    (l.Next).2.1 = -1 ∧
    (l.elementWithIndex l.selection = Option.none → l.Next = (l, -1, false)) ∧
    (∀ it, l.elementWithIndex l.selection = some it →
      (l.Next).1.selection = -1 ∧ ((l.Next).2.2 = true ↔ it.hash ≠ "")) := by
  cases he : l.elementWithIndex l.selection with
  | none =>
    have hn : l.Next = (l, -1, false) := by
      unfold ListState.Next
      rw [he]
    refine ⟨by rw [hn], fun _ => hn, fun it hit => ?_⟩
    cases hit
  | some e =>
    have hn : l.Next = ({ l with selection := -1 }, -1, "" != e.hash) := by
      unfold ListState.Next
      rw [he]
      simp [ListState.chooseNext, h]
    refine ⟨by rw [hn], fun hnone => ?_, fun it hit => ?_⟩
    · cases hnone
    · cases hit
      rw [hn]
      exact ⟨rfl, by simp [bne_iff_ne, ne_comm]⟩

/-- Claim C8 counterexample: `dropFresh` has Drop automode, yet `Next`
returns `(-1, false)`, not `(-1, true)` as the claim states. -/
theorem next_drop_cex :
    dropFresh.autoselect = AutoMode.drop ∧ (dropFresh.Next).2 ≠ (-1, true) := by
  exact ⟨rfl, by decide⟩

/-- Witness for the amended claim C8 at `dropSelected`. -/
theorem next_drop_behaviour_witness :
    dropSelected.autoselect = .drop ∧
    ((dropSelected.Next).2.1 = -1 ∧
      (dropSelected.elementWithIndex dropSelected.selection = Option.none →
        dropSelected.Next = (dropSelected, -1, false)) ∧
      (∀ it, dropSelected.elementWithIndex dropSelected.selection = some it →
        (dropSelected.Next).1.selection = -1 ∧
        ((dropSelected.Next).2.2 = true ↔ it.hash ≠ ""))) :=
  ⟨rfl, next_drop_behaviour dropSelected rfl⟩

/-! ## Claim C2 -/

/-- Claim C2 (amended): for every list reachable from a fresh list by `Add`,
`Select`, `SetAutoMode` and `Next`, if `Selection()` returns `(i, item)` with
`i ≠ -1` then `i ≥ 0` and the list's item at index `i` equals `item`.  (The
claim's further conjunct that `item` is selectable does not hold: `Next` in
Next or Shuffle automode can leave the selection on a Text item, see the
counterexample.) -/
theorem selection_valid_of_reach (l : ListState) (_hr : Reach l) (i : Int)
    (item : Item) (h : l.Selection = .ok (i, some item)) :
    0 ≤ i ∧ l.items[i.toNat]? = some item := by
  unfold ListState.Selection at h
  by_cases hs : l.selection = -1
  · rw [if_pos hs] at h
    cases h
  · rw [if_neg hs] at h
    cases he : l.elementWithIndex l.selection with
    | none => rw [he] at h; cases h
    | some it' =>
      rw [he] at h
      cases h
      exact findAtIndex_some l.items _ _ he

/-- Claim C2 counterexample: `lC2` is reachable, its `Selection()` returns
`(1, item)` with `i = 1 ≠ -1`, yet the item is a Text item and not
selectable. -/
theorem selection_text_cex :
    Reach lC2 ∧ lC2.Selection = .ok (1, some ⟨"b", "hello", .text⟩) ∧
    (⟨"b", "hello", .text⟩ : Item).IsSelectable = false := by
  refine ⟨?_, rfl, rfl⟩
  exact Reach.nextStep _ (Reach.setAutoMode _ _ (Reach.select _ _ _
    (Reach.add _ _ _ (Reach.add _ _ _ (Reach.new [])))))

/-- Witness for claim C2's amended theorem at `lC2w`. -/
theorem selection_valid_of_reach_witness :
    Reach lC2w ∧ lC2w.Selection = .ok (0, some ⟨"a", "x.mp3", .track⟩) ∧
    (0 ≤ (0 : Int) ∧ lC2w.items[(0 : Int).toNat]? = some ⟨"a", "x.mp3", .track⟩) := by
  have hreach : Reach lC2w :=
    Reach.select _ _ _ (Reach.add _ _ _ (Reach.new []))
  exact ⟨hreach, rfl, selection_valid_of_reach lC2w hreach 0 ⟨"a", "x.mp3", .track⟩ rfl⟩

/-! ## Claim C10 -/

/-- Claim C10: if `Add(item, i)` with `0 ≤ i` returns an error (duplicate
hash or index beyond the list length), the item sequence and the selection
are exactly as before the call. -/
theorem add_error_leaves_unchanged (l : ListState) (item : Item) (i : Int)
    (hwf : l.WF) (hi : 0 ≤ i) (l' : ListState) (e : Err)
    (h : l.Add item i = (l', some e)) :
    l'.items = l.items ∧ l'.selection = l.selection := by
  unfold ListState.Add at h
  cases hh : l.elementWithHash item.hash with
  | some p =>
    rw [hh] at h
    obtain ⟨q, r⟩ := p
    cases h
    exact ⟨rfl, rfl⟩
  | none =>
    rw [hh] at h
    simp only [] at h
    by_cases h0 : i = 0
    · rw [if_pos h0] at h
      exact absurd (congrArg Prod.snd h) (by simp)
    · rw [if_neg h0] at h
      by_cases hr : 1 ≤ i ∧ i ≤ (l.items.length : Int)
      · rw [if_pos hr] at h
        exact absurd (congrArg Prod.snd h) (by simp)
      · rw [if_neg hr] at h
        have hsel : ¬ i ≤ l.selection := by
          rcases hwf with hw | ⟨hw0, hwlen⟩ <;> omega
        rw [if_neg hsel] at h
        have h1 := congrArg Prod.fst h
        simp only [] at h1
        rw [← h1]
        exact ⟨rfl, rfl⟩

/-- Witness for claim C10's theorem at `addCexList` with a duplicate hash. -/
theorem add_error_leaves_unchanged_witness :
    addCexList.WF ∧ (0 : Int) ≤ 0 ∧
    ((addCexList.Add ⟨"a", "q.mp3", .track⟩ 0).1.items = addCexList.items ∧
     (addCexList.Add ⟨"a", "q.mp3", .track⟩ 0).1.selection = addCexList.selection) := by
  refine ⟨Or.inl rfl, by decide, ?_⟩
  exact add_error_leaves_unchanged addCexList ⟨"a", "q.mp3", .track⟩ 0 (Or.inl rfl)
    (by decide) (addCexList.Add ⟨"a", "q.mp3", .track⟩ 0).1 (.duplicateHash "a" 0)
    (by decide)

/-! ## Controller lemmas -/

/-- Valid non-negative indices are found by `findAtIndex`. -/
theorem findAtIndex_valid :
    ∀ (xs : List Item) (i : Int), 0 ≤ i → i < (xs.length : Int) →
      ∃ it, findAtIndex xs i = some it := by
  intro xs
  induction xs with
  | nil =>
    intro i h0 hlen
    simp at hlen
    omega
  | cons x xs ih =>
    intro i h0 hlen
    by_cases hz : i = 0
    · exact ⟨x, by rw [findAtIndex, if_pos hz]⟩
    · have hlen' : i - 1 < (xs.length : Int) := by
        simp at hlen
        omega
      obtain ⟨it, hit⟩ := ih (i - 1) (by omega) hlen'
      exact ⟨it, by rw [findAtIndex, if_neg hz]; exact hit⟩

/-- Under the selection invariant, `selectResponse` cannot panic: it is a
`SelectResponse`. -/
theorem selectResponse_ok (l : ListState) (hwf : l.WF) :
    ∃ i h, l.selectResponse = .ok (.sel i h) := by
  rcases hwf with hs | ⟨h0, hlen⟩
  · have hsel : l.Selection = .ok (-1, Option.none) := by
      unfold ListState.Selection
      rw [if_pos hs]
    refine ⟨-1, "(undefined)", ?_⟩
    unfold ListState.selectResponse
    rw [hsel]
    simp
  · have hne : ¬ l.selection = -1 := by omega
    obtain ⟨it, hit⟩ := findAtIndex_valid l.items l.selection h0 hlen
    have hsel : l.Selection = .ok (l.selection, some it) := by
      unfold ListState.Selection
      rw [if_neg hne]
      rw [show l.elementWithIndex l.selection = some it from hit]
    refine ⟨l.selection, it.hash, ?_⟩
    unfold ListState.selectResponse
    rw [hsel]
    simp [show ¬ l.selection < 0 from by omega]

/-- Under the selection invariant, `Dump` emits automode, freeze, selection
in order, with no panic. -/
theorem dumpBodies_ok (l : ListState) (hwf : l.WF) :
    ∃ i h, l.DumpBodies = .ok [.autoMode l.autoselect, .freeze l.Freeze, .sel i h] := by
  obtain ⟨i, h, hsr⟩ := selectResponse_ok l hwf
  refine ⟨i, h, ?_⟩
  unfold ListState.DumpBodies
  rw [hsr]

/-- A changed selection implies a nil `Select` error. -/
theorem select_changed_no_err (l : ListState) (i : Int) (h : String) :
    (l.Select i h).2.1 = true → (l.Select i h).2.2 = Option.none := by
  unfold ListState.Select
  cases he : l.elementWithIndex i with
  | none => simp
  | some it =>
    by_cases h1 : h ≠ it.hash
    · simp [h1]
    · by_cases h2 : ¬ it.IsSelectable
      · simp [h1, h2]
      · simp [h1, h2]

/-- `handleSelectRequest`'s broadcast guard `err != nil && changed` is
unsatisfiable, so the select handler never invokes a callback: it just
returns `Select`'s new state and error. -/
theorem handleSelect_eq (l : ListState) (i : Int) (h : String) :
    l.HandleRequest (.setSelect i h)
      = .ok ((l.Select i h).1, [], (l.Select i h).2.2) := by
  simp only [ListState.HandleRequest]
  have hguard : ¬ ((l.Select i h).2.2 ≠ Option.none ∧ (l.Select i h).2.1 = true) := by
    rintro ⟨hne, hch⟩
    exact hne (select_changed_no_err l i h hch)
  rw [if_neg hguard]

/-- The list handler always returns (it never escalates a panic), and no
callback it performs carries an `AckResponse`. -/
theorem listHandle_no_ack (l : ListState) (b : RBody) :
    ∃ l1 evs err, l.HandleRequest b = .ok (l1, evs, err) ∧
      ∀ e ∈ evs, ∃ rb, e = CbEvent.viaBcast rb ∧ isAck rb = false := by
  cases b with
  | setAutoMode m =>
    refine ⟨_, _, _, rfl, ?_⟩
    intro e he
    by_cases hch : (l.SetAutoMode m).2 <;> simp [hch] at he
    exact ⟨_, he, rfl⟩
  | setSelect i h =>
    refine ⟨_, _, _, handleSelect_eq l i h, ?_⟩
    intro e he
    simp at he
  | addItem i it =>
    refine ⟨_, _, _, rfl, ?_⟩
    intro e he
    by_cases herr : (l.Add it i).2 = Option.none <;> simp [herr] at he
    exact ⟨_, he, rfl⟩
  | role => exact ⟨_, _, _, rfl, by intro e he; simp at he⟩
  | dump => exact ⟨_, _, _, rfl, by intro e he; simp at he⟩
  | newClient => exact ⟨_, _, _, rfl, by intro e he; simp at he⟩
  | shutdown => exact ⟨_, _, _, rfl, by intro e he; simp at he⟩
  | unknownBody => exact ⟨_, _, _, rfl, by intro e he; simp at he⟩

/-! ## Claim C3 -/

/-- Claim C3: for every request body and every well-formed list state, the
Controller's `handleRequest` succeeds and emits exactly the dispatch's
replies and broadcasts followed by one terminating `AckResponse` reply to
the request's origin, carrying exactly the handler's error (or nil); no
other emitted event is an acknowledgement to any origin. -/
theorem handleRequest_done (l : ListState) (o : Origin) (b : RBody) (hwf : l.WF) :
    ∃ l1 evs err,
      dispatch l o b = .ok (l1, evs, err) ∧
      handleRequest l o b = .ok (l1, evs ++ [.reply o (.ack err)]) ∧
      ∀ e ∈ evs, ∀ o' err', e ≠ Event.reply o' (.ack err') := by
  have hdisp : ∃ l1 evs err, dispatch l o b = .ok (l1, evs, err) ∧
      ∀ e ∈ evs, ∀ o' err', e ≠ Event.reply o' (.ack err') := by
    cases b with
    | role =>
      refine ⟨l, _, _, rfl, ?_⟩
      intro e he o' err'
      simp at he
      subst he
      simp
    | dump =>
      obtain ⟨i, hsh, hd⟩ := dumpBodies_ok l hwf
      refine ⟨l, _, _, by simp only [dispatch]; rw [hd], ?_⟩
      intro e he o' err'
      simp at he
      rcases he with he | he | he <;> (subst he; simp)
    | newClient =>
      refine ⟨l, _, _, rfl, ?_⟩
      intro e he o' err'
      simp at he
      subst he
      simp
    | shutdown =>
      refine ⟨l, _, _, rfl, ?_⟩
      intro e he o' err'
      simp at he
    | setAutoMode m =>
      obtain ⟨l1, evs, err, hh, hno⟩ := listHandle_no_ack l (.setAutoMode m)
      refine ⟨l1, _, err, by simp only [dispatch]; rw [hh], ?_⟩
      intro e he o' err'
      obtain ⟨cbe, hcbe, hfe⟩ := List.mem_map.mp he
      subst hfe
      obtain ⟨rb, hrb, hack⟩ := hno _ hcbe
      subst hrb
      intro heq
      injection heq with ho hb2
      subst hb2
      simp [isAck] at hack
    | setSelect i h =>
      obtain ⟨l1, evs, err, hh, hno⟩ := listHandle_no_ack l (.setSelect i h)
      refine ⟨l1, _, err, by simp only [dispatch]; rw [hh], ?_⟩
      intro e he o' err'
      obtain ⟨cbe, hcbe, hfe⟩ := List.mem_map.mp he
      subst hfe
      obtain ⟨rb, hrb, hack⟩ := hno _ hcbe
      subst hrb
      intro heq
      injection heq with ho hb2
      subst hb2
      simp [isAck] at hack
    | addItem i it =>
      obtain ⟨l1, evs, err, hh, hno⟩ := listHandle_no_ack l (.addItem i it)
      refine ⟨l1, _, err, by simp only [dispatch]; rw [hh], ?_⟩
      intro e he o' err'
      obtain ⟨cbe, hcbe, hfe⟩ := List.mem_map.mp he
      subst hfe
      obtain ⟨rb, hrb, hack⟩ := hno _ hcbe
      subst hrb
      intro heq
      injection heq with ho hb2
      subst hb2
      simp [isAck] at hack
    | unknownBody =>
      obtain ⟨l1, evs, err, hh, hno⟩ := listHandle_no_ack l .unknownBody
      refine ⟨l1, _, err, by simp only [dispatch]; rw [hh], ?_⟩
      intro e he o' err'
      obtain ⟨cbe, hcbe, hfe⟩ := List.mem_map.mp he
      subst hfe
      obtain ⟨rb, hrb, hack⟩ := hno _ hcbe
      subst hrb
      intro heq
      injection heq with ho hb2
      subst hb2
      simp [isAck] at hack
  obtain ⟨l1, evs, err, hd, hno⟩ := hdisp
  refine ⟨l1, evs, err, hd, ?_, hno⟩
  unfold handleRequest
  rw [hd]

/-- Witness for claim C3 at a fresh list and a Role request. -/
theorem handleRequest_done_witness :
    (ListState.new []).WF ∧
    ∃ l1 evs err,
      dispatch (ListState.new []) ⟨"t1"⟩ .role = .ok (l1, evs, err) ∧
      handleRequest (ListState.new []) ⟨"t1"⟩ .role
        = .ok (l1, evs ++ [.reply ⟨"t1"⟩ (.ack err)]) ∧
      ∀ e ∈ evs, ∀ o' err', e ≠ Event.reply o' (.ack err') :=
  ⟨Or.inl rfl, handleRequest_done (ListState.new []) ⟨"t1"⟩ .role (Or.inl rfl)⟩

/-! ## Claim C1 -/

/-- Claim C1 (code evaluation at the failing input): on `lC1`, the request
`SetSelect{0, "abc"}` names an existing selectable item whose index differs
from the current selection, and handling it succeeds (`err = nil`, the
selection moves to 0) — yet the handler performs no callback at all: the
broadcast callback never receives the `SelectResponse`, because the guard
`err != nil && changed` in `handleSelectRequest` is unsatisfiable. -/
theorem select_no_broadcast_cex :
    lC1.HandleRequest (.setSelect 0 "abc")
      = .ok ({ lC1 with selection := 0 }, [], Option.none) := by
  rfl

/-! ## Claim C9 -/

/-- A fresh list Controller's replies to the injected Role request. -/
theorem handshake_role_replies (rng : List Nat) :
    handleRequest (ListState.new rng) bcastOrigin .role
      = .ok (ListState.new rng,
          [.reply bcastOrigin (.role "list"),
           .reply bcastOrigin (.ack Option.none)]) := rfl

/-- A fresh list Controller's replies to the injected Dump request. -/
theorem handshake_dump_replies (rng : List Nat) :
    handleRequest (ListState.new rng) bcastOrigin .dump
      = .ok (ListState.new rng,
          [.reply bcastOrigin (.autoMode .off), .reply bcastOrigin (.freeze []),
           .reply bcastOrigin (.sel (-1) "(undefined)"),
           .reply bcastOrigin (.ack Option.none)]) := rfl

/-- Emitting the Role replies until the suppressed ACK yields `IAMA`. -/
theorem handshake_role_messages :
    untilAck "!" (repliesTo bcastOrigin
      [.reply bcastOrigin (.role "list"), .reply bcastOrigin (.ack Option.none)])
      = [⟨"!", "IAMA", ["list"]⟩] := rfl

/-- Emitting the Dump replies until the suppressed ACK yields `AUTO off`,
`COUNTL 0`, `SEL -1 (undefined)`. -/
theorem handshake_dump_messages :
    untilAck "!" (repliesTo bcastOrigin
      [.reply bcastOrigin (.autoMode .off), .reply bcastOrigin (.freeze []),
       .reply bcastOrigin (.sel (-1) "(undefined)"),
       .reply bcastOrigin (.ack Option.none)])
      = [⟨"!", "AUTO", ["off"]⟩, ⟨"!", "COUNTL", ["0"]⟩,
         ⟨"!", "SEL", ["-1", "(undefined)"]⟩] := rfl

/-- Claim C9: over a fresh list Controller (empty list, automode off, no
selection) with any random seed, the adapter's new-client sequence is
exactly `! OHAI bifrost-0.0.0 baps3d-0.0.0`, `! IAMA list`, `! AUTO off`,
`! COUNTL 0`, `! SEL -1 (undefined)`, the injected Role and Dump requests'
Done terminators being suppressed. -/
theorem handshake_messages (rng : List Nat) :
    handleNewClientResponses (ListState.new rng) =
      .ok [⟨"!", "OHAI", ["bifrost-0.0.0", "baps3d-0.0.0"]⟩,
           ⟨"!", "IAMA", ["list"]⟩,
           ⟨"!", "AUTO", ["off"]⟩,
           ⟨"!", "COUNTL", ["0"]⟩,
           ⟨"!", "SEL", ["-1", "(undefined)"]⟩] := by
  unfold handleNewClientResponses
  rw [handshake_role_replies rng]
  simp only [handshake_dump_replies rng, handshake_role_messages,
    handshake_dump_messages]
  rfl

end Yaps
